import Mathlib

/-!
Verification of the spanish-reading-assistent core against its specification.

The definitions below are a shallow embedding of the repository's TypeScript
source: the storage service (`addVocabBatch`, `removeVocab`, `createBook`,
`addPageToBook`, `updatePageProgress`, `getVocab`, `getBookPages`), the
reading-flow handlers of `AnalysisView` (`handleNextPhase`, `handlePrevPhase`,
`handleSaveToBook`) and the vocabulary trainer (`startSession`, `handleRating`).
Asynchronous effects are modelled by explicit state passing; the browser's
random sources (`crypto.randomUUID`, `Math.random`) are modelled as explicit
generator parameters; a remote-backend outage is modelled by a boolean flag
that makes every remote call fail.
-/

/-! ## String normalization (JS `trim` / `toLowerCase`)

`word.trim()` removes whitespace from both ends of a string;
`word.toLowerCase()` lowercases it.  Both are modelled on the character list
of the string.  (JS lowercases the full Unicode range; `Char.toLower` covers
the ASCII letters, which is the part relevant to the dedup logic.) -/

/-- Characters treated as trimmable whitespace. -/
def jsWs (c : Char) : Bool := c.isWhitespace

/-- Model of JS `word.trim()`: drop whitespace at both ends of the character list. -/
def jsTrim (s : String) : String := ⟨(s.data.dropWhile jsWs).rdropWhile jsWs⟩

/-- Model of JS `word.toLowerCase()`. -/
def jsLower (s : String) : String := ⟨s.data.map Char.toLower⟩

/-- The comparison key `word.trim().toLowerCase()` used by the storage service. -/
def normKey (w : String) : String := jsLower (jsTrim w)

theorem not_head_of_dropWhile_eq_cons {p : α → Bool} :
    ∀ {l : List α} {a : α} {t : List α}, List.dropWhile p l = a :: t → ¬ p a := by
  intro l
  induction l with
  | nil => intro a t h; simp [List.dropWhile] at h
  | cons x xs ih =>
      intro a t h
      by_cases hx : p x
      · rw [List.dropWhile_cons, if_pos hx] at h
        exact ih h
      · rw [List.dropWhile_cons, if_neg hx] at h
        obtain ⟨rfl, -⟩ := List.cons.injEq x xs a t ▸ h
        exact hx

theorem dropWhile_rdropWhile_dropWhile (p : α → Bool) (l : List α) :
    List.dropWhile p (List.rdropWhile p (List.dropWhile p l)) =
      List.rdropWhile p (List.dropWhile p l) := by
  rcases hm : List.dropWhile p l with - | ⟨a, t⟩
  · simp
  · have ha : ¬ p a := not_head_of_dropWhile_eq_cons hm
    obtain ⟨u, hu⟩ := List.rdropWhile_prefix p (a :: t)
    rcases hr : List.rdropWhile p (a :: t) with - | ⟨b, s⟩
    · simp
    · rw [hr] at hu
      have hb : b = a := by
        have hh := congrArg List.head? hu
        simpa using hh
      rw [List.dropWhile_cons, if_neg (hb ▸ ha)]

theorem jsTrim_idem (s : String) : jsTrim (jsTrim s) = jsTrim s := by
  show (⟨(((s.data.dropWhile jsWs).rdropWhile jsWs).dropWhile jsWs).rdropWhile jsWs⟩ : String) = _
  rw [dropWhile_rdropWhile_dropWhile, List.rdropWhile_idempotent]
  rfl

theorem normKey_jsTrim (w : String) : normKey (jsTrim w) = normKey w := by
  unfold normKey
  rw [jsTrim_idem]

/-! ## Data model (`types.ts`) -/

/-- `WordCategory` from `types.ts`. -/
inductive WordCategory where
  | noun
  | verb
  | adjective
  | function
deriving DecidableEq

/-- `MasteryLevel` from the newest `types.ts` generation. -/
inductive MasteryLevel where
  | new
  | again
  | medium
  | good
  | mastered
deriving DecidableEq

/-- `VocabItem` from `types.ts` (with the optional `masteryLevel` of the newest
generation; absent optional fields are `none`). -/
structure VocabItem where
  id : String
  word : String
  translation : String
  explanation : String
  literalTranslation : Option String := none
  category : Option WordCategory := none
  baseForm : Option String := none
  contextSentence : Option String := none
  tense : Option String := none
  person : Option String := none
  addedAt : Nat
  mastered : Bool
  masteryLevel : Option MasteryLevel := none
deriving DecidableEq

/-- A candidate passed to `addVocabBatch`: `Omit<VocabItem, 'id' | 'addedAt' | 'mastered'>`. -/
structure VocabCandidate where
  word : String
  translation : String
  explanation : String
  literalTranslation : Option String := none
  category : Option WordCategory := none
  baseForm : Option String := none
  contextSentence : Option String := none
  tense : Option String := none
  person : Option String := none
  masteryLevel : Option MasteryLevel := none
deriving DecidableEq

/-! ## `addVocabBatch` (storage service, signed-out branch)

From the storage service: the signed-out branch reads the current list, builds
`existingWords` as the set of `word.trim().toLowerCase()` keys, and for each
candidate in order inserts it (at the front, via `unshift`) iff its normalized
word is not in the set and is non-empty, adding the key to the set.  The
signed-in branch applies the identical normalization/dedup logic to a Firestore
write batch.  `crypto.randomUUID()` is modelled by the generator `gen` applied
to the running insertion count, and `Date.now()` by the parameter `now`. -/

/-- The item actually stored for an accepted candidate (`word` is stored trimmed,
`id`/`addedAt`/`mastered` are filled in; other fields are spread from the candidate). -/
def mkFreshItem (c : VocabCandidate) (id : String) (addedAt : Nat) : VocabItem :=
  { id := id
    word := jsTrim c.word
    translation := c.translation
    explanation := c.explanation
    literalTranslation := c.literalTranslation
    category := c.category
    baseForm := c.baseForm
    contextSentence := c.contextSentence
    tense := c.tense
    person := c.person
    addedAt := addedAt
    mastered := false
    masteryLevel := c.masteryLevel }

/-- The `items.forEach` loop of `addVocabBatch`, with the accumulated
`existingWords` set, `updated` list and `addedCount`. -/
def addVocabLoop (gen : Nat → String) (addedAt : Nat) :
    List VocabCandidate → List String → List VocabItem → Nat → Nat × List VocabItem
  | [], _, updated, count => (count, updated)
  | item :: rest, existing, updated, count =>
      let normalizedWord := normKey item.word
      if normalizedWord ∉ existing ∧ 0 < normalizedWord.length then
        addVocabLoop gen addedAt rest (normalizedWord :: existing)
          (mkFreshItem item (gen count) addedAt :: updated) (count + 1)
      else
        addVocabLoop gen addedAt rest existing updated count

/-- `addVocabBatch(items)` on collection state `current`; returns the inserted
count and the new collection state. -/
def addVocabBatch (gen : Nat → String) (now : Nat) (current : List VocabItem)
    (items : List VocabCandidate) : Nat × List VocabItem :=
  addVocabLoop gen now items (current.map fun v => normKey v.word) current 0

/-- One `addVocabBatch` call: its id generator, its `Date.now()` and its candidates. -/
structure AddCall where
  gen : Nat → String
  now : Nat
  items : List VocabCandidate

/-- A sequence of `addVocabBatch` calls applied to a collection state. -/
def runAddCalls (calls : List AddCall) (s : List VocabItem) : List VocabItem :=
  calls.foldl (fun st c => (addVocabBatch c.gen c.now st c.items).2) s

/-- The dedup invariant: no two stored items share a trimmed-lowercased word. -/
def NormNodup (s : List VocabItem) : Prop :=
  (s.map fun v => normKey v.word).Nodup

instance (s : List VocabItem) : Decidable (NormNodup s) := by
  unfold NormNodup
  infer_instance

theorem addVocabLoop_normNodup (gen : Nat → String) (now : Nat) :
    ∀ (items : List VocabCandidate) (existing : List String) (updated : List VocabItem)
      (count : Nat),
      (updated.map fun v => normKey v.word).Nodup →
      (∀ v ∈ updated, normKey v.word ∈ existing) →
      NormNodup (addVocabLoop gen now items existing updated count).2 := by
  intro items
  induction items with
  | nil => intro ex up c h1 h2; exact h1
  | cons item rest ih =>
      intro ex up c h1 h2
      simp only [addVocabLoop]
      by_cases hcond : normKey item.word ∉ ex ∧ 0 < (normKey item.word).length
      · rw [if_pos hcond]
        apply ih
        · simp only [List.map_cons, mkFreshItem, normKey_jsTrim]
          refine List.Nodup.cons ?_ h1
          intro hmem
          obtain ⟨v, hv, hveq⟩ := List.mem_map.mp hmem
          exact hcond.1 (hveq ▸ h2 v hv)
        · intro v hv
          rcases List.mem_cons.mp hv with hv | hv
          · subst hv
            simp only [mkFreshItem, normKey_jsTrim]
            exact List.mem_cons_self _ _
          · exact List.mem_cons_of_mem _ (h2 v hv)
      · rw [if_neg hcond]
        exact ih ex up c h1 h2

/-- C1 (amended).  Starting from any collection state in which no two stored
items already share a trimmed-lowercased word, every sequence of
`addVocabularyBatch` (`addVocabBatch`) calls preserves that invariant: the
resulting collection contains at most one item per case-insensitive trimmed
surface form, regardless of overlap between batches or repeated words within
one batch. -/
theorem addVocabBatch_dedup_preserved (calls : List AddCall) (s : List VocabItem)
    (h : NormNodup s) : NormNodup (runAddCalls calls s) := by
  induction calls generalizing s with
  | nil => exact h
  | cons c rest ih =>
      show NormNodup (runAddCalls rest (addVocabBatch c.gen c.now s c.items).2)
      refine ih _ ?_
      refine addVocabLoop_normNodup c.gen c.now c.items _ s 0 h ?_
      intro v hv
      exact List.mem_map.mpr ⟨v, hv, rfl⟩

/-- A stored item used in counterexamples: surface form `hola`. -/
def itemHolaA : VocabItem :=
  { id := "a", word := "hola", translation := "hallo", explanation := "", addedAt := 0,
    mastered := false }

/-- A second stored item whose word also normalizes to `hola`. -/
def itemHolaB : VocabItem :=
  { id := "b", word := "Hola", translation := "hallo", explanation := "", addedAt := 0,
    mastered := false }

/-- C1 counterexample.  The claim quantifies over *any* starting collection
state; from a state that already contains two items normalizing to `hola`, a
sequence of `addVocabBatch` calls (here one call with an empty candidate list)
leaves the duplicate in place, so the resulting collection does not satisfy the
claimed uniqueness. -/
theorem addVocabBatch_dedup_anyState_false :
    ¬ NormNodup (runAddCalls [⟨fun _ => "id", 1, []⟩] [itemHolaA, itemHolaB]) := by
  decide

/-- C1 witness. -/
theorem addVocabBatch_dedup_preserved_witness :
    NormNodup ([] : List VocabItem) ∧
      NormNodup (runAddCalls [⟨fun _ => "id", 1, []⟩] []) :=
  ⟨by decide, addVocabBatch_dedup_preserved [⟨fun _ => "id", 1, []⟩] [] (by decide)⟩

/-! ## Characterization of one `addVocabBatch` call (C2) -/

/-- Direct description of the items one `addVocabBatch` call inserts:
candidates are scanned in order against the evolving `seen` key set; a
candidate is skipped iff its normalized word is already in `seen` (it exists in
storage or appeared earlier in the same batch) or is empty after trimming;
otherwise it is stored via `mkFreshItem` with the `k`-th generated identifier. -/
def addVocabInsertRun (gen : Nat → String) (now : Nat) :
    List VocabCandidate → List String → Nat → List VocabItem
  | [], _, _ => []
  | c :: rest, seen, k =>
      let n := normKey c.word
      if n ∉ seen ∧ 0 < n.length then
        mkFreshItem c (gen k) now :: addVocabInsertRun gen now rest (n :: seen) (k + 1)
      else
        addVocabInsertRun gen now rest seen k

/-- The items inserted by `addVocabBatch gen now current items`, in insertion order. -/
def addVocabInserted (gen : Nat → String) (now : Nat) (current : List VocabItem)
    (items : List VocabCandidate) : List VocabItem :=
  addVocabInsertRun gen now items (current.map fun v => normKey v.word) 0

theorem addVocabLoop_eq_insertRun (gen : Nat → String) (now : Nat) :
    ∀ (items : List VocabCandidate) (existing : List String) (updated : List VocabItem)
      (count : Nat),
      addVocabLoop gen now items existing updated count =
        (count + (addVocabInsertRun gen now items existing count).length,
         (addVocabInsertRun gen now items existing count).reverse ++ updated) := by
  intro items
  induction items with
  | nil => intro ex up c; simp [addVocabLoop, addVocabInsertRun]
  | cons item rest ih =>
      intro ex up c
      simp only [addVocabLoop, addVocabInsertRun]
      by_cases hcond : normKey item.word ∉ ex ∧ 0 < (normKey item.word).length
      · rw [if_pos hcond, if_pos hcond, ih]
        rw [Prod.mk.injEq]
        constructor
        · simp only [List.length_cons]
          omega
        · simp [List.reverse_cons, List.append_assoc]
      · rw [if_neg hcond, if_neg hcond]
        exact ih ex up c

theorem addVocabInsertRun_fields (gen : Nat → String) (now : Nat) :
    ∀ (items : List VocabCandidate) (seen : List String) (k : Nat),
      (∀ c ∈ items, c.masteryLevel = none) →
      ∀ v ∈ addVocabInsertRun gen now items seen k,
        v.addedAt = now ∧ v.mastered = false ∧ v.masteryLevel = none := by
  intro items
  induction items with
  | nil => intro seen k _ v hv; simp [addVocabInsertRun] at hv
  | cons c rest ih =>
      intro seen k hml v hv
      simp only [addVocabInsertRun] at hv
      by_cases hcond : normKey c.word ∉ seen ∧ 0 < (normKey c.word).length
      · rw [if_pos hcond] at hv
        rcases List.mem_cons.mp hv with hv | hv
        · subst hv
          refine ⟨rfl, rfl, ?_⟩
          simpa [mkFreshItem] using hml c (List.mem_cons_self _ _)
        · exact ih _ _ (fun c' hc' => hml c' (List.mem_cons_of_mem _ hc')) v hv
      · rw [if_neg hcond] at hv
        exact ih _ _ (fun c' hc' => hml c' (List.mem_cons_of_mem _ hc')) v hv

theorem addVocabInsertRun_ids (gen : Nat → String) (now : Nat) :
    ∀ (items : List VocabCandidate) (seen : List String) (k : Nat) (i : Nat)
      (h : i < (addVocabInsertRun gen now items seen k).length),
      ((addVocabInsertRun gen now items seen k).get ⟨i, h⟩).id = gen (k + i) := by
  intro items
  induction items with
  | nil => intro seen k i h; simp [addVocabInsertRun] at h
  | cons c rest ih =>
      intro seen k i h
      by_cases hcond : normKey c.word ∉ seen ∧ 0 < (normKey c.word).length
      · have hrun : addVocabInsertRun gen now (c :: rest) seen k =
            mkFreshItem c (gen k) now :: addVocabInsertRun gen now rest (normKey c.word :: seen) (k + 1) := by
          simp only [addVocabInsertRun]
          rw [if_pos hcond]
        cases i with
        | zero => simp [hrun, mkFreshItem]
        | succ j =>
            have h' : j < (addVocabInsertRun gen now rest (normKey c.word :: seen) (k + 1)).length := by
              have := h
              rw [hrun] at this
              simpa using this
            have := ih (normKey c.word :: seen) (k + 1) j h'
            rw [show k + (j + 1) = k + 1 + j by omega]
            rw [← this]
            congr 1
            simp [hrun]
      · have hrun : addVocabInsertRun gen now (c :: rest) seen k =
            addVocabInsertRun gen now rest seen k := by
          simp only [addVocabInsertRun]
          rw [if_neg hcond]
        have h' : i < (addVocabInsertRun gen now rest seen k).length := by
          rw [← hrun]; exact h
        have := ih seen k i h'
        rw [← this]
        congr 1
        simp [hrun]

/-- C2 (amended).  For every candidate list passed to `addVocabBatch`: a
candidate is skipped iff its trimmed-lowercased word already exists in storage,
already appeared earlier in the same batch, or is empty after trimming; every
other candidate is persisted (word stored trimmed) with a fresh identifier
(the `i`-th inserted item gets the `i`-th generated id), an `addedAt` timestamp
shared by all items of the batch and `mastered = false`; no `masteryLevel`
field is written at insertion time (it stays absent — `none` — for the
candidates produced by page ingestion, which never carry one); and the return
value equals the number of items actually inserted, not the length of the
candidate list.  The new items are prepended (most recent first) to the
previous collection state. -/
theorem addVocabBatch_insert_spec (gen : Nat → String) (now : Nat)
    (current : List VocabItem) (items : List VocabCandidate)
    (hml : ∀ c ∈ items, c.masteryLevel = none) :
    (addVocabBatch gen now current items).1 =
        (addVocabInserted gen now current items).length ∧
    (addVocabBatch gen now current items).2 =
        (addVocabInserted gen now current items).reverse ++ current ∧
    (∀ v ∈ addVocabInserted gen now current items,
        v.addedAt = now ∧ v.mastered = false ∧ v.masteryLevel = none) ∧
    (∀ (i : Nat) (h : i < (addVocabInserted gen now current items).length),
        ((addVocabInserted gen now current items).get ⟨i, h⟩).id = gen i) := by
  refine ⟨?_, ?_, ?_, ?_⟩
  · show (addVocabLoop gen now items _ current 0).1 = _
    rw [addVocabLoop_eq_insertRun]
    simp [addVocabInserted]
  · show (addVocabLoop gen now items _ current 0).2 = _
    rw [addVocabLoop_eq_insertRun]
    rfl
  · exact addVocabInsertRun_fields gen now items _ 0 hml
  · intro i h
    simpa using addVocabInsertRun_ids gen now items _ 0 i h

/-- A concrete candidate with surrounding whitespace and no mastery level. -/
def candHola : VocabCandidate :=
  { word := " Hola ", translation := "hallo", explanation := "Gruß" }

/-- A concrete candidate whose word is whitespace only. -/
def candBlank : VocabCandidate :=
  { word := "   ", translation := "x", explanation := "y" }

/-- C2 counterexample.  Inserting a fresh candidate into the empty collection
stores it with `masteryLevel` absent (`none`), not `masteryLevel = "new"` as
the claim states; and a candidate that is whitespace-only after trimming is
skipped (count `0`) even though it neither exists in storage nor appeared
earlier in the batch. -/
theorem addVocabBatch_masteryLevel_claim_false :
    (addVocabBatch (fun _ => "u0") 7 [] [candHola]).2.map VocabItem.masteryLevel = [none] ∧
    (none : Option MasteryLevel) ≠ some MasteryLevel.new ∧
    (addVocabBatch (fun _ => "u1") 7 [] [candBlank]).1 = 0 := by
  decide

/-- C2 witness. -/
theorem addVocabBatch_insert_spec_witness :
    (∀ c ∈ [candHola], c.masteryLevel = none) ∧
    (addVocabBatch (fun k => String.append "u" (toString k)) 5 [] [candHola]).1 =
      (addVocabInserted (fun k => String.append "u" (toString k)) 5 [] [candHola]).length :=
  ⟨by decide,
   (addVocabBatch_insert_spec (fun k => String.append "u" (toString k)) 5 [] [candHola]
      (by decide)).1⟩

/-! ## Page-analysis data model (`types.ts`) -/

/-- The `type` field of a lexical token. -/
inductive TokType where
  | word
  | punctuation
deriving DecidableEq

/-- `WordAnalysis` from `types.ts`: one lexical token, self-referential through
the optional `subWords` list (sub-tokens of a multi-word phrase). -/
inductive WordAnalysis where
  | mk (word : String) (translation : Option String) (explanation : Option String)
      (literalTranslation : Option String) (category : Option WordCategory)
      (baseForm : Option String) (type : Option TokType) (tense : Option String)
      (person : Option String) (subWords : Option (List WordAnalysis))

def WordAnalysis.word : WordAnalysis → String
  | .mk w _ _ _ _ _ _ _ _ _ => w

def WordAnalysis.translation : WordAnalysis → Option String
  | .mk _ t _ _ _ _ _ _ _ _ => t

def WordAnalysis.explanation : WordAnalysis → Option String
  | .mk _ _ e _ _ _ _ _ _ _ => e

def WordAnalysis.literalTranslation : WordAnalysis → Option String
  | .mk _ _ _ l _ _ _ _ _ _ => l

def WordAnalysis.category : WordAnalysis → Option WordCategory
  | .mk _ _ _ _ c _ _ _ _ _ => c

def WordAnalysis.baseForm : WordAnalysis → Option String
  | .mk _ _ _ _ _ b _ _ _ _ => b

def WordAnalysis.type : WordAnalysis → Option TokType
  | .mk _ _ _ _ _ _ ty _ _ _ => ty

def WordAnalysis.tense : WordAnalysis → Option String
  | .mk _ _ _ _ _ _ _ te _ _ => te

def WordAnalysis.person : WordAnalysis → Option String
  | .mk _ _ _ _ _ _ _ _ pe _ => pe

def WordAnalysis.subWords : WordAnalysis → Option (List WordAnalysis)
  | .mk _ _ _ _ _ _ _ _ _ sw => sw

/-- `SentenceAnalysis` from `types.ts`. -/
structure SentenceAnalysis where
  original : String
  translation : String
  words : List WordAnalysis

/-- `PageAnalysisResult` from `types.ts`. -/
structure PageAnalysisResult where
  sentences : List SentenceAnalysis

/-- `Book` from `types.ts`. -/
structure Book where
  id : String
  title : String
  author : String
  coverStyle : Option String := none
  createdAt : Nat
  pageCount : Nat
deriving DecidableEq

/-- `BookPage` from `types.ts`. -/
structure BookPage where
  id : String
  bookId : String
  pageNumber : Nat
  image : String
  analysis : PageAnalysisResult
  createdAt : Nat
  lastSentenceIndex : Option Nat := none

/-! ## Persistence gateway (storage service, books and pages)

The gateway targets a per-user remote store when signed in and the local
key-value store otherwise; a remote outage (every remote call throwing) is
modelled by the `fail` flag.  The remote vocabulary/book/page collections are
modelled by the sequences their (ordered) queries return.  `localStorage` page
lists (one key per book id) are an association list. -/

/-- `localStorage.getItem` for a per-book page list (missing key means `[]`). -/
def lookupPages (store : List (String × List BookPage)) (bookId : String) : List BookPage :=
  match store.lookup bookId with
  | some ps => ps
  | none => []

/-- `localStorage.setItem` for a per-book page list. -/
def updateAssoc (store : List (String × List BookPage)) (bookId : String)
    (ps : List BookPage) : List (String × List BookPage) :=
  match store with
  | [] => [(bookId, ps)]
  | (k, v) :: rest =>
      if k = bookId then (bookId, ps) :: rest else (k, v) :: updateAssoc rest bookId ps

/-- The two stores of every collection the gateway manages. -/
structure GatewayState where
  remoteVocab : List VocabItem
  localVocab : List VocabItem
  remoteBooks : List Book
  localBooks : List Book
  remotePages : List (String × List BookPage)
  localPages : List (String × List BookPage)

/-- `getVocab`: remote read when signed in (empty on failure), else local read. -/
def getVocabG (user fail : Bool) (st : GatewayState) : List VocabItem :=
  if user then (if fail then [] else st.remoteVocab) else st.localVocab

/-- `removeVocab(id)`.  When signed in and the remote delete succeeds the
function returns from inside the `try`; when it throws, the `catch` only logs,
so control falls through to the local-storage branch, which re-reads via
`getVocab` (still signed in, so a remote read) and overwrites the local store
with the filtered result. -/
def removeVocabG (user fail : Bool) (st : GatewayState) (id : String) : GatewayState :=
  if user ∧ ¬ fail then
    { st with remoteVocab := st.remoteVocab.filter fun i => i.id != id }
  else
    let current := getVocabG user fail st
    { st with localVocab := current.filter fun i => i.id != id }

/-- The fixed `coverStyle` palette of `createBook`. -/
def coverPalette : List String :=
  ["bg-emerald-800", "bg-amber-900", "bg-slate-800", "bg-indigo-900"]

/-- `createBook(title, author)`: builds the book with `pageCount = 0` and a
pseudo-random palette style (`Math.floor(Math.random()*4)` is the parameter
`styleIdx`); the remote branch re-throws on failure (`throw e`), the local
branch prepends to the stored book list. -/
def createBookG (user fail : Bool) (genId : String) (now : Nat) (styleIdx : Fin 4)
    (st : GatewayState) (title author : String) : Except Unit String × GatewayState :=
  let newBook : Book :=
    { id := genId, title := title, author := author, createdAt := now, pageCount := 0,
      coverStyle := some (coverPalette.getD styleIdx.val "") }
  if user then
    if fail then (Except.error (), st)
    else (Except.ok genId, { st with remoteBooks := st.remoteBooks ++ [newBook] })
  else
    (Except.ok genId, { st with localBooks := newBook :: st.localBooks })

/-- `books[findIndex].pageCount += 1`: bump the page count of the first book
with the given id (no change if absent). -/
def bumpPageCount : List Book → String → List Book
  | [], _ => []
  | b :: rest, bookId =>
      if b.id = bookId then { b with pageCount := b.pageCount + 1 } :: rest
      else b :: bumpPageCount rest bookId

/-- `getBookPages(bookId)`: remote query (by `pageNumber` asc) when signed in,
empty on failure; local association-list read otherwise. -/
def getBookPagesG (user fail : Bool) (st : GatewayState) (bookId : String) : List BookPage :=
  if user then (if fail then [] else lookupPages st.remotePages bookId)
  else lookupPages st.localPages bookId

/-- `addPageToBook(bookId, image, analysis)`: reads the current page list (this
read happens before the `try`), numbers the new page `length + 1`, then appends
the page and increments the book's `pageCount`; the signed-in branch re-throws
on failure. -/
def addPageToBookG (user fail : Bool) (genId : String) (now : Nat) (st : GatewayState)
    (bookId image : String) (analysis : PageAnalysisResult) :
    Except Unit String × GatewayState :=
  let currentPages := getBookPagesG user fail st bookId
  let newPage : BookPage :=
    { id := genId, bookId := bookId, pageNumber := currentPages.length + 1, image := image,
      analysis := analysis, createdAt := now, lastSentenceIndex := some 0 }
  if user then
    if fail then (Except.error (), st)
    else
      (Except.ok genId,
        { st with
          remotePages :=
            updateAssoc st.remotePages bookId (lookupPages st.remotePages bookId ++ [newPage])
          remoteBooks := bumpPageCount st.remoteBooks bookId })
  else
    (Except.ok genId,
      { st with
        localPages :=
          updateAssoc st.localPages bookId (lookupPages st.localPages bookId ++ [newPage])
        localBooks := bumpPageCount st.localBooks bookId })

/-- Set `lastSentenceIndex` on the first page with the given id. -/
def updateFirstPage (pageId : String) (idx : Nat) : List BookPage → List BookPage
  | [] => []
  | p :: rest =>
      if p.id = pageId then { p with lastSentenceIndex := some idx } :: rest
      else p :: updateFirstPage pageId idx rest

/-- `updatePageProgress(bookId, pageId, sentenceIndex)`: the signed-in branch
catches a remote failure and only logs it (a genuine silent no-op); the
signed-out branch rewrites the stored page list only when the key exists. -/
def updatePageProgressG (user fail : Bool) (st : GatewayState) (bookId pageId : String)
    (sentenceIndex : Nat) : GatewayState :=
  if user then
    if fail then st
    else
      { st with
        remotePages :=
          updateAssoc st.remotePages bookId
            (updateFirstPage pageId sentenceIndex (lookupPages st.remotePages bookId)) }
  else
    match st.localPages.lookup bookId with
    | none => st
    | some ps =>
        { st with
          localPages := updateAssoc st.localPages bookId (updateFirstPage pageId sentenceIndex ps) }

/-- C3 (amended).  When a remote call fails while an identity is signed in:
reads (`getVocab`, `getBookPages`) return the empty list; `updatePageProgress`
is a genuine silent no-op; `removeVocab` raises no error to the caller but is
*not* a no-op — its `catch` only logs, control falls through to the
local-storage branch, and the local vocabulary store is overwritten with the
(id-filtered, hence empty) result of the failed remote read; and only the
identifier-returning create operations (`createBook`, `addPageToBook`) re-raise
the failure, leaving all state unchanged. -/
theorem gateway_failure_semantics (st : GatewayState)
    (id bookId pageId title author image genId : String) (now k : Nat)
    (styleIdx : Fin 4) (analysis : PageAnalysisResult) :
    getVocabG true true st = [] ∧
    getBookPagesG true true st bookId = [] ∧
    updatePageProgressG true true st bookId pageId k = st ∧
    removeVocabG true true st id = { st with localVocab := [] } ∧
    (createBookG true true genId now styleIdx st title author).1 = Except.error () ∧
    (createBookG true true genId now styleIdx st title author).2 = st ∧
    (addPageToBookG true true genId now st bookId image analysis).1 = Except.error () ∧
    (addPageToBookG true true genId now st bookId image analysis).2 = st := by
  refine ⟨rfl, rfl, rfl, ?_, rfl, rfl, rfl, rfl⟩
  simp [removeVocabG, getVocabG]

/-- A gateway state whose local store holds one vocabulary item. -/
def gwSt0 : GatewayState :=
  { remoteVocab := [], localVocab := [itemHolaA], remoteBooks := [], localBooks := [],
    remotePages := [], localPages := [] }

/-- C3 counterexample.  With an identity signed in and the remote backend
failing, `removeVocab` does change state: the non-empty local vocabulary store
is wiped, contradicting the claimed silent no-op for writes. -/
theorem removeVocab_failure_noop_false :
    (removeVocabG true true gwSt0 "zzz").localVocab = [] ∧ gwSt0.localVocab ≠ [] := by
  constructor
  · rfl
  · decide

/-! ## Page-append numbering (C8) -/

theorem lookupPages_updateAssoc (store : List (String × List BookPage))
    (bookId : String) (ps : List BookPage) :
    lookupPages (updateAssoc store bookId ps) bookId = ps := by
  induction store with
  | nil => simp [updateAssoc, lookupPages, List.lookup]
  | cons kv rest ih =>
      obtain ⟨k, v⟩ := kv
      by_cases hk : k = bookId
      · simp [updateAssoc, hk, lookupPages, List.lookup]
      · have hk' : (bookId == k) = false := beq_eq_false_iff_ne.mpr fun h => hk h.symm
        simp only [updateAssoc, if_neg hk]
        show lookupPages ((k, v) :: updateAssoc rest bookId ps) bookId = ps
        simp only [lookupPages, List.lookup, hk']
        exact ih

theorem bumpPageCount_append (pre : List Book) (b : Book) (post : List Book)
    (bookId : String) (hpre : ∀ x ∈ pre, x.id ≠ bookId) (hb : b.id = bookId) :
    bumpPageCount (pre ++ b :: post) bookId =
      pre ++ { b with pageCount := b.pageCount + 1 } :: post := by
  induction pre with
  | nil => simp [bumpPageCount, hb]
  | cons x rest ih =>
      have hx : x.id ≠ bookId := hpre x (List.mem_cons_self _ _)
      simp only [List.cons_append, bumpPageCount, List.append_eq, if_neg hx]
      rw [ih fun y hy => hpre y (List.mem_cons_of_mem _ hy)]

/-- One ingestion parameter tuple for `addPageToBook`: the generated page id,
the `Date.now()` value, the image payload and the analysis. -/
structure PageParams where
  genId : String
  now : Nat
  image : String
  analysis : PageAnalysisResult

/-- Appending a sequence of pages to one book through the signed-out branch of
`addPageToBook`. -/
def appendPagesLocal (params : List PageParams) (st : GatewayState) (bookId : String) :
    GatewayState :=
  params.foldl (fun s p => (addPageToBookG false false p.genId p.now s bookId p.image p.analysis).2) st

theorem appendPagesLocal_inv (bid : String) (b : Book) (pre post : List Book)
    (hpre : ∀ x ∈ pre, x.id ≠ bid) (hbid : b.id = bid) :
    ∀ (params : List PageParams) (st : GatewayState) (k : Nat),
      st.localBooks = pre ++ { b with pageCount := k } :: post →
      (lookupPages st.localPages bid).map BookPage.pageNumber = List.range' 1 k →
      (lookupPages (appendPagesLocal params st bid).localPages bid).map BookPage.pageNumber =
          List.range' 1 (k + params.length) ∧
        (appendPagesLocal params st bid).localBooks =
          pre ++ { b with pageCount := k + params.length } :: post := by
  intro params
  induction params with
  | nil =>
      intro st k hbooks hpages
      exact ⟨by simpa using hpages, by simpa using hbooks⟩
  | cons p rest ih =>
      intro st k hbooks hpages
      have hlen : (lookupPages st.localPages bid).length = k := by
        have := congrArg List.length hpages
        simpa using this
      have hstep :
          (addPageToBookG false false p.genId p.now st bid p.image p.analysis).2 =
            { st with
              localPages :=
                updateAssoc st.localPages bid
                  (lookupPages st.localPages bid ++
                    [{ id := p.genId, bookId := bid,
                       pageNumber := (lookupPages st.localPages bid).length + 1,
                       image := p.image, analysis := p.analysis, createdAt := p.now,
                       lastSentenceIndex := some 0 }])
              localBooks := bumpPageCount st.localBooks bid } := by
        simp [addPageToBookG, getBookPagesG]
      show (lookupPages (appendPagesLocal rest _ bid).localPages bid).map BookPage.pageNumber =
          _ ∧ _
      rw [show appendPagesLocal (p :: rest) st bid =
            appendPagesLocal rest
              ((addPageToBookG false false p.genId p.now st bid p.image p.analysis).2) bid from rfl]
      rw [hstep]
      have hres := ih
        { st with
          localPages :=
            updateAssoc st.localPages bid
              (lookupPages st.localPages bid ++
                [{ id := p.genId, bookId := bid,
                   pageNumber := (lookupPages st.localPages bid).length + 1,
                   image := p.image, analysis := p.analysis, createdAt := p.now,
                   lastSentenceIndex := some 0 }])
          localBooks := bumpPageCount st.localBooks bid }
        (k + 1) ?_ ?_
      · have hkl : k + 1 + rest.length = k + (rest.length + 1) := by omega
        rw [hkl] at hres
        simpa using hres
      · show bumpPageCount st.localBooks bid = pre ++ { b with pageCount := k + 1 } :: post
        rw [hbooks,
          bumpPageCount_append pre { b with pageCount := k } post bid hpre
            (show ({ b with pageCount := k } : Book).id = bid from hbid)]
      · show (lookupPages (updateAssoc st.localPages bid _) bid).map BookPage.pageNumber =
          List.range' 1 (k + 1)
        rw [lookupPages_updateAssoc]
        rw [List.map_append, hpages, hlen]
        simp [List.range'_concat]
        omega


/-- C8.  For every book (as created by `createBook`: `pageCount = 0`, no pages,
id unique among the stored books before it), appending `N` pages sequentially
via `addPageToBook` assigns `pageNumber` values `1..N` in append order (each
computed as current page count + 1) and leaves the book's denormalized
`pageCount` equal to `N`. -/
theorem addPageToBook_numbering (st : GatewayState) (bid : String) (b : Book)
    (pre post : List Book) (params : List PageParams)
    (hbooks : st.localBooks = pre ++ b :: post)
    (hpre : ∀ x ∈ pre, x.id ≠ bid)
    (hbid : b.id = bid)
    (hcount : b.pageCount = 0)
    (hpages : lookupPages st.localPages bid = []) :
    (lookupPages (appendPagesLocal params st bid).localPages bid).map BookPage.pageNumber =
        List.range' 1 params.length ∧
      (appendPagesLocal params st bid).localBooks =
        pre ++ { b with pageCount := params.length } :: post := by
  have hb0 : ({ b with pageCount := 0 } : Book) = b := by
    cases b
    simp_all
  have h := appendPagesLocal_inv bid b pre post hpre hbid params st 0
    (by rw [hb0]; exact hbooks) (by rw [hpages]; rfl)
  simpa using h

/-- A concrete fresh book. -/
def bookEx : Book :=
  { id := "b1", title := "El principito", author := "Saint-Exupéry", createdAt := 3,
    pageCount := 0 }

/-- A gateway state holding just `bookEx` in the local store. -/
def gwStBook : GatewayState :=
  { remoteVocab := [], localVocab := [], remoteBooks := [], localBooks := [bookEx],
    remotePages := [], localPages := [] }

/-- Two concrete page-append parameter tuples. -/
def pageParamsEx : List PageParams :=
  [{ genId := "p1", now := 10, image := "img1", analysis := ⟨[]⟩ },
   { genId := "p2", now := 11, image := "img2", analysis := ⟨[]⟩ }]

/-- C8 witness. -/
theorem addPageToBook_numbering_witness :
    (lookupPages (appendPagesLocal pageParamsEx gwStBook "b1").localPages "b1").map
        BookPage.pageNumber = List.range' 1 pageParamsEx.length ∧
      (appendPagesLocal pageParamsEx gwStBook "b1").localBooks =
        [] ++ { bookEx with pageCount := pageParamsEx.length } :: [] :=
  addPageToBook_numbering gwStBook "b1" bookEx [] [] pageParamsEx rfl
    (by simp) rfl rfl rfl

/-! ## Vocabulary ingestion flattening (`AnalysisView.handleNextPhase`)

`lexicalWords = currentSentence.words.filter(w => w.type === 'word')`, and on
advancing past the translation phase each such token is mapped to a candidate
carrying `contextSentence = currentSentence.original`. -/

/-- `w.type === 'word'`. -/
def isWordTok (w : WordAnalysis) : Bool := decide (w.type = some TokType.word)

/-- The candidate built for one lexical token (`wordsToSave` entry):
`translation`/`explanation` default to the empty string, `category`/`baseForm`
are passed through, `contextSentence` is the sentence's `original`; no other
fields are set. -/
def toCandidate (original : String) (w : WordAnalysis) : VocabCandidate :=
  { word := w.word
    translation := w.translation.getD ""
    explanation := w.explanation.getD ""
    category := w.category
    baseForm := w.baseForm
    contextSentence := some original }

/-- The ingestion candidates built from one sentence (the `wordsToSave` list). -/
def ingestCandidates (s : SentenceAnalysis) : List VocabCandidate :=
  (s.words.filter isWordTok).map (toCandidate s.original)

/-- The candidate count the claim asserts: one per top-level `word` token plus
one per sub-token of each such token (the spec's sub-token flattening). -/
def claimedFlattenCount (s : SentenceAnalysis) : Nat :=
  ((s.words.filter isWordTok).map fun w => 1 + (w.subWords.getD []).length).sum

/-- C4 (amended).  The ingestion flattening emits exactly one candidate per
top-level token of type `word`, each carrying `contextSentence =
sentence.original` (and no mastery level); tokens of type `punctuation` (or
with no type) are dropped, and sub-tokens are ignored — they produce no
candidates of their own, so the candidate count equals the number of top-level
`word` tokens alone. -/
theorem ingest_flatten_spec (s : SentenceAnalysis) :
    (ingestCandidates s).length = (s.words.filter isWordTok).length ∧
    (∀ c ∈ ingestCandidates s, c.contextSentence = some s.original) ∧
    (∀ c ∈ ingestCandidates s, c.masteryLevel = none) := by
  refine ⟨by simp [ingestCandidates], ?_, ?_⟩
  · intro c hc
    obtain ⟨w, -, rfl⟩ := List.mem_map.mp hc
    rfl
  · intro c hc
    obtain ⟨w, -, rfl⟩ := List.mem_map.mp hc
    rfl

/-- A sub-token of the phrase token below. -/
def subTokSe : WordAnalysis :=
  .mk "se" (some "sich") none none (some .verb) (some "levantarse") (some .word) none none none

/-- A second sub-token. -/
def subTokLevanto : WordAnalysis :=
  .mk "levantó" (some "hob") none none (some .verb) (some "levantar") (some .word) none none none

/-- A phrase token with two sub-tokens. -/
def phraseTok : WordAnalysis :=
  .mk "Se levantó" (some "stand auf") none none (some .verb) (some "levantarse") (some .word)
    none none (some [subTokSe, subTokLevanto])

/-- A punctuation token. -/
def punctTok : WordAnalysis :=
  .mk "." none none none none none (some .punctuation) none none none

/-- A sentence with one phrase token (two sub-tokens) and one punctuation token. -/
def sentPhrase : SentenceAnalysis :=
  { original := "Se levantó.", translation := "Er stand auf.",
    words := [phraseTok, punctTok] }

/-- C4 counterexample.  On a sentence whose single `word` token carries two
sub-tokens, the claim predicts 1 + 2 = 3 candidates (parent plus sub-tokens);
the code emits exactly 1 — sub-tokens are never flattened into the batch. -/
theorem ingest_subwords_claim_false :
    (ingestCandidates sentPhrase).length = 1 ∧
    claimedFlattenCount sentPhrase = 3 ∧ (1 : Nat) ≠ 3 := by
  decide

/-! ## Reading-flow state machine (`AnalysisView`)

`handleNextPhase` / `handlePrevPhase` of the book-aware `AnalysisView`
generation.  The component state is `(currentSentenceIndex, phase,
currentWordIndex, finished, savedToBook)`; side effects (the `addVocabBatch`
call in the translation branch and the `addPageToBook` call of
`handleSaveToBook`) are recorded in an event trace.  A `vocabBatch i` event
stands for the `addVocabBatch(wordsToSave)` call issued while leaving sentence
`i`'s translation phase; `pageAppend` stands for the `addPageToBook` call of
`handleSaveToBook`.  `targetBook` models a non-null `targetBookId` (with the
image present and the save succeeding). -/

/-- The three phases of the per-sentence walkthrough. -/
inductive FlowPhase where
  | sentence
  | words
  | translation
deriving DecidableEq

/-- Persistence events issued by the reading flow. -/
inductive PgEvent where
  | vocabBatch (sIdx : Nat)
  | pageAppend
deriving DecidableEq

/-- Reading-flow component state plus the recorded event trace. -/
structure FlowState where
  sIdx : Nat
  phase : FlowPhase
  wIdx : Nat
  finished : Bool
  savedToBook : Bool
  trace : List PgEvent
deriving DecidableEq

/-- Number of lexical-queue entries of a sentence (`lexicalWords.length`). -/
def wcount (s : SentenceAnalysis) : Nat := (s.words.filter isWordTok).length

/-- `handleNextPhase`: one forward advance.  (The `finished` guard models the
component's finished screen / `!finished` key handler; a missing sentence is
the `!currentSentence` early return.) -/
def handleNextPhase (targetBook : Bool) (result : List SentenceAnalysis)
    (st : FlowState) : FlowState :=
  if st.finished then st
  else
    match result[st.sIdx]? with
    | none => st
    | some s =>
      match st.phase with
      | .sentence =>
          if 0 < wcount s then { st with phase := .words, wIdx := 0 }
          else { st with phase := .translation }
      | .words =>
          if st.wIdx < wcount s - 1 then { st with wIdx := st.wIdx + 1 }
          else { st with phase := .translation }
      | .translation =>
          let st1 := { st with trace := st.trace ++ [PgEvent.vocabBatch st.sIdx] }
          if st.sIdx < result.length - 1 then
            { st1 with sIdx := st.sIdx + 1, phase := .sentence, wIdx := 0 }
          else
            if targetBook ∧ st.savedToBook = false then
              { st1 with finished := true, savedToBook := true,
                         trace := st1.trace ++ [PgEvent.pageAppend] }
            else { st1 with finished := true }

/-- The lexical-queue length `handlePrevPhase` reads
(`currentSentence?.words.filter(...) || []`). -/
def queueLen (result : List SentenceAnalysis) (st : FlowState) : Nat :=
  match result[st.sIdx]? with
  | some s => wcount s
  | none => 0

/-- `handlePrevPhase`: one backward step. -/
def handlePrevPhase (result : List SentenceAnalysis) (st : FlowState) : FlowState :=
  match st.phase with
  | .translation =>
      if 0 < queueLen result st then
        { st with phase := .words, wIdx := queueLen result st - 1 }
      else { st with phase := .sentence }
  | .words =>
      if 0 < st.wIdx then { st with wIdx := st.wIdx - 1 }
      else { st with phase := .sentence }
  | .sentence =>
      if 0 < st.sIdx then { st with sIdx := st.sIdx - 1, phase := .translation }
      else st

/-- Iterated forward advances. -/
def advanceN (targetBook : Bool) (result : List SentenceAnalysis) :
    Nat → FlowState → FlowState
  | 0, st => st
  | n + 1, st => advanceN targetBook result n (handleNextPhase targetBook result st)

/-- The initial reading-flow state: `(sentenceIndex = 0, phase = sentence)`. -/
def initFlow : FlowState :=
  { sIdx := 0, phase := .sentence, wIdx := 0, finished := false, savedToBook := false,
    trace := [] }

/-- The advance count the code actually requires: `Σ (wᵢ + 2)`. -/
def codeAdvanceTotal (result : List SentenceAnalysis) : Nat :=
  (result.map fun s => wcount s + 2).sum

/-- The advance count the claim asserts: `Σ (1 + wᵢ + 1)` minus 1 for each
sentence with an empty lexical queue. -/
def claimedAdvanceTotal (result : List SentenceAnalysis) : Nat :=
  (result.map fun s => wcount s + 2).sum - (result.filter fun s => wcount s == 0).length

theorem advanceN_add (tb : Bool) (result : List SentenceAnalysis) (m n : Nat)
    (st : FlowState) :
    advanceN tb result (m + n) st = advanceN tb result n (advanceN tb result m st) := by
  induction m generalizing st with
  | zero => rw [Nat.zero_add]; rfl
  | succ m ih =>
      show advanceN tb result (m + 1 + n) st = _
      rw [show m + 1 + n = (m + n) + 1 by omega]
      show advanceN tb result (m + n) (handleNextPhase tb result st) = _
      rw [ih]
      rfl

theorem step_translation (tb : Bool) (result : List SentenceAnalysis) (i w : Nat)
    (s : SentenceAnalysis) (sv : Bool) (tr : List PgEvent) (hs : result[i]? = some s) :
    handleNextPhase tb result ⟨i, .translation, w, false, sv, tr⟩ =
      if i < result.length - 1 then
        ⟨i + 1, .sentence, 0, false, sv, tr ++ [PgEvent.vocabBatch i]⟩
      else if tb ∧ sv = false then
        ⟨i, .translation, w, true, true, tr ++ [PgEvent.vocabBatch i] ++ [PgEvent.pageAppend]⟩
      else ⟨i, .translation, w, true, sv, tr ++ [PgEvent.vocabBatch i]⟩ := by
  simp only [handleNextPhase, hs]
  by_cases h1 : i < result.length - 1
  · simp [h1]
  · by_cases h2 : tb ∧ sv = false
    · simp [h1, h2]
    · simp [h1, h2]

theorem advanceN_mid (tb : Bool) (result : List SentenceAnalysis) (i : Nat)
    (s : SentenceAnalysis) (sv : Bool) (tr : List PgEvent) (hs : result[i]? = some s) :
    ∀ k, k ≤ wcount s + 1 →
      advanceN tb result k ⟨i, .sentence, 0, false, sv, tr⟩ =
        if k = 0 then ⟨i, .sentence, 0, false, sv, tr⟩
        else if k ≤ wcount s then ⟨i, .words, k - 1, false, sv, tr⟩
        else ⟨i, .translation, wcount s - 1, false, sv, tr⟩ := by
  intro k
  induction k with
  | zero => intro _; simp [advanceN]
  | succ k ih =>
      intro hk
      have hk' : k ≤ wcount s + 1 := by omega
      rw [show k + 1 = k + 1 from rfl, advanceN_add tb result k 1]
      rw [ih hk']
      by_cases hk0 : k = 0
      · subst hk0
        simp only [if_pos rfl]
        show handleNextPhase tb result ⟨i, .sentence, 0, false, sv, tr⟩ = _
        by_cases hw : 0 < wcount s
        · have h1 : ¬ (0 + 1 = 0) := by omega
          have h2 : 0 + 1 ≤ wcount s := by omega
          rw [if_neg h1, if_pos h2]
          simp [handleNextPhase, hs, hw]
        · have hw0 : wcount s = 0 := by omega
          have h1 : ¬ (0 + 1 = 0) := by omega
          have h2 : ¬ (0 + 1 ≤ wcount s) := by omega
          rw [if_neg h1, if_neg h2]
          simp [handleNextPhase, hs, hw0]
      · have hkle : k ≤ wcount s := by omega
        rw [if_neg hk0, if_pos hkle]
        show handleNextPhase tb result ⟨i, .words, k - 1, false, sv, tr⟩ = _
        by_cases hlast : k - 1 < wcount s - 1
        · have h1 : ¬ (k + 1 = 0) := by omega
          have h2 : k + 1 ≤ wcount s := by omega
          rw [if_neg h1, if_pos h2]
          have : k - 1 + 1 = k + 1 - 1 := by omega
          simp [handleNextPhase, hs, hlast, this]
        · have hkeq : k = wcount s := by omega
          have h1 : ¬ (k + 1 = 0) := by omega
          have h2 : ¬ (k + 1 ≤ wcount s) := by omega
          rw [if_neg h1, if_neg h2]
          have : k - 1 = wcount s - 1 := by omega
          simp [handleNextPhase, hs, hlast, this]

theorem advanceN_sentence_block (tb : Bool) (result : List SentenceAnalysis) (i : Nat)
    (s : SentenceAnalysis) (sv : Bool) (tr : List PgEvent) (hs : result[i]? = some s) :
    advanceN tb result (wcount s + 2) ⟨i, .sentence, 0, false, sv, tr⟩ =
      handleNextPhase tb result ⟨i, .translation, wcount s - 1, false, sv, tr⟩ := by
  rw [show wcount s + 2 = (wcount s + 1) + 1 by omega, advanceN_add]
  rw [advanceN_mid tb result i s sv tr hs (wcount s + 1) (le_refl _)]
  rw [if_neg (by omega : ¬ (wcount s + 1 = 0)), if_neg (by omega : ¬ (wcount s + 1 ≤ wcount s))]
  rfl

theorem advanceN_page (tb : Bool) (result : List SentenceAnalysis) :
    ∀ (r i : Nat) (sv : Bool) (tr : List PgEvent), 0 < r → i + r = result.length →
      (advanceN tb result (((result.drop i).map fun s => wcount s + 2).sum)
          ⟨i, .sentence, 0, false, sv, tr⟩).finished = true ∧
      (advanceN tb result (((result.drop i).map fun s => wcount s + 2).sum)
          ⟨i, .sentence, 0, false, sv, tr⟩).trace =
        tr ++ (List.range' i r).map PgEvent.vocabBatch ++
          (if tb ∧ sv = false then [PgEvent.pageAppend] else []) ∧
      ∀ k, k < ((result.drop i).map fun s => wcount s + 2).sum →
        (advanceN tb result k ⟨i, .sentence, 0, false, sv, tr⟩).finished = false := by
  intro r
  induction r with
  | zero => intro i sv tr h0; omega
  | succ r ih =>
      intro i sv tr hr hlen
      have hi : i < result.length := by omega
      obtain ⟨s, hs⟩ : ∃ s, result[i]? = some s := ⟨_, List.getElem?_eq_getElem hi⟩
      have hgi : result[i] = s := by
        have h2 := List.getElem?_eq_getElem hi
        rw [hs] at h2
        exact (Option.some_inj.mp h2).symm
      have hdrop : result.drop i = s :: result.drop (i + 1) := by
        rw [List.drop_eq_getElem_cons hi, hgi]
      have htot : ((result.drop i).map fun t => wcount t + 2).sum =
          (wcount s + 2) + ((result.drop (i + 1)).map fun t => wcount t + 2).sum := by
        rw [hdrop]
        simp
      by_cases hr0 : r = 0
      · -- last sentence: i = result.length - 1
        subst hr0
        have hdrop1 : result.drop (i + 1) = [] := by
          apply List.drop_eq_nil_of_le
          omega
        have htot1 : ((result.drop i).map fun t => wcount t + 2).sum = wcount s + 2 := by
          rw [htot, hdrop1]
          simp
        have hlt : ¬ (i < result.length - 1) := by omega
        have hfin : advanceN tb result (wcount s + 2) ⟨i, .sentence, 0, false, sv, tr⟩ =
            if tb ∧ sv = false then
              ⟨i, .translation, wcount s - 1, true, true,
                tr ++ [PgEvent.vocabBatch i] ++ [PgEvent.pageAppend]⟩
            else ⟨i, .translation, wcount s - 1, true, sv, tr ++ [PgEvent.vocabBatch i]⟩ := by
          rw [advanceN_sentence_block tb result i s sv tr hs,
            step_translation tb result i (wcount s - 1) s sv tr hs, if_neg hlt]
        refine ⟨?_, ?_, ?_⟩
        · rw [htot1, hfin]
          by_cases hc : tb ∧ sv = false <;> simp [hc]
        · rw [htot1, hfin]
          by_cases hc : tb ∧ sv = false <;> simp [hc, List.range'_one]
        · intro k hk
          rw [htot1] at hk
          rw [advanceN_mid tb result i s sv tr hs k (by omega)]
          split_ifs <;> rfl
      · -- not the last sentence
        have hlt : i < result.length - 1 := by omega
        have hstep : advanceN tb result (wcount s + 2) ⟨i, .sentence, 0, false, sv, tr⟩ =
            ⟨i + 1, .sentence, 0, false, sv, tr ++ [PgEvent.vocabBatch i]⟩ := by
          rw [advanceN_sentence_block tb result i s sv tr hs,
            step_translation tb result i (wcount s - 1) s sv tr hs, if_pos hlt]
        obtain ⟨ih1, ih2, ih3⟩ := ih (i + 1) sv (tr ++ [PgEvent.vocabBatch i])
          (by omega) (by omega)
        refine ⟨?_, ?_, ?_⟩
        · rw [htot, advanceN_add, hstep]
          exact ih1
        · rw [htot, advanceN_add, hstep, ih2]
          rw [List.range'_succ, List.map_cons]
          simp
        · intro k hk
          by_cases hks : k ≤ wcount s + 1
          · rw [advanceN_mid tb result i s sv tr hs k hks]
            split_ifs <;> rfl
          · have hk2 : k = (wcount s + 2) + (k - (wcount s + 2)) := by omega
            rw [hk2, advanceN_add, hstep]
            apply ih3
            omega

/-- C6 (amended).  For every non-empty page with sentences of lexical-queue
lengths `wᵢ`, the number of forward advances taking the reading flow from
`(sentenceIndex = 0, phase = sentence)` to the finished terminal state equals
`Σᵢ (1 + wᵢ + 1)` with **no** subtraction for empty-queue sentences: the
`sentence → translation` short-circuit does not reduce the count (an empty
sentence still costs the two advances `sentence → translation → next`).  In
particular, for S = 2, w₀ = 3, w₁ = 0 exactly 7 advances are required. -/
theorem advance_count_formula (tb : Bool) (result : List SentenceAnalysis)
    (h : result ≠ []) :
    (advanceN tb result (codeAdvanceTotal result) initFlow).finished = true ∧
    ∀ k, k < codeAdvanceTotal result →
      (advanceN tb result k initFlow).finished = false := by
  have h0 : 0 < result.length := List.length_pos.mpr h
  obtain ⟨h1, -, h3⟩ := advanceN_page tb result result.length 0 false [] h0 (by omega)
  rw [List.drop_zero] at h1 h3
  exact ⟨h1, h3⟩

/-- A token of type `word` (used by concrete reading-flow pages). -/
def mkWordTok (w : String) : WordAnalysis :=
  .mk w (some "t") (some "e") none none none (some TokType.word) none none none

/-- A sentence with three word tokens. -/
def sentThree : SentenceAnalysis :=
  { original := "Uno dos tres.", translation := "Eins zwei drei.",
    words := [mkWordTok "uno", mkWordTok "dos", mkWordTok "tres", punctTok] }

/-- A sentence with an empty lexical queue. -/
def sentEmpty : SentenceAnalysis :=
  { original := "…", translation := "…", words := [punctTok] }

/-- The claim's concrete page: S = 2, w₀ = 3, w₁ = 0. -/
def pageC6 : List SentenceAnalysis := [sentThree, sentEmpty]

/-- C6 counterexample.  On the claim's own instance (w₀ = 3, w₁ = 0) the
claimed formula `Σ (1 + wᵢ + 1) − #\x7bi ∣ wᵢ = 0\x7d` yields 6, but after 6
advances the flow is not finished; it takes 7 (= `Σ (1 + wᵢ + 1)`) advances,
exactly as the claim's own example states — so the general formula with the
"minus 1" adjustment is false on the code. -/
theorem advance_count_adjustment_false :
    claimedAdvanceTotal pageC6 = 6 ∧
    (advanceN false pageC6 6 initFlow).finished = false ∧
    (advanceN false pageC6 7 initFlow).finished = true ∧
    codeAdvanceTotal pageC6 = 7 := by
  decide

/-- C6 witness. -/
theorem advance_count_formula_witness :
    (advanceN false pageC6 (codeAdvanceTotal pageC6) initFlow).finished = true :=
  (advance_count_formula false pageC6 (List.cons_ne_nil _ _)).1

/-- C5 (amended).  For a page analysed with a pre-selected book, driving the
reading flow forward to completion issues one vocabulary-batch insert per
sentence *during* the walkthrough (each time a sentence's translation phase is
left), and appends the page via `addPageToBook` only at the very end, after
the last sentence's batch: the trace is `vocabBatch 0, …, vocabBatch (S−1),
pageAppend`.  Hence ingestion is neither a single batch nor ordered after the
page append — the code's order is the reverse of the claimed one. -/
theorem page_append_after_batches (result : List SentenceAnalysis) (h : result ≠ []) :
    (advanceN true result (codeAdvanceTotal result) initFlow).trace =
      (List.range result.length).map PgEvent.vocabBatch ++ [PgEvent.pageAppend] ∧
    (advanceN true result (codeAdvanceTotal result) initFlow).finished = true := by
  have h0 : 0 < result.length := List.length_pos.mpr h
  obtain ⟨h1, h2, -⟩ := advanceN_page true result result.length 0 false [] h0 (by omega)
  rw [List.drop_zero] at h1 h2
  refine ⟨?_, h1⟩
  show (advanceN true result ((result.map fun s => wcount s + 2).sum)
      ⟨0, .sentence, 0, false, false, []⟩).trace = _
  rw [h2]
  simp [List.range_eq_range']

/-- `true` iff the event is a vocabulary-batch insert. -/
def isBatchEvent : PgEvent → Bool
  | .vocabBatch _ => true
  | .pageAppend => false

/-- The ordering the claim asserts for a page trace: every page append occurs
strictly before every vocabulary-batch insert. -/
def AppendBeforeBatches (tr : List PgEvent) : Prop :=
  ∀ i j : Fin tr.length, tr.get i = PgEvent.pageAppend →
    isBatchEvent (tr.get j) = true → (i : Nat) < (j : Nat)

instance (tr : List PgEvent) : Decidable (AppendBeforeBatches tr) := by
  unfold AppendBeforeBatches
  infer_instance

/-- A two-sentence page with one word each, read with a pre-selected book. -/
def pageC5 : List SentenceAnalysis :=
  [{ original := "Hola.", translation := "Hallo.", words := [mkWordTok "hola", punctTok] },
   { original := "Adiós.", translation := "Tschüss.", words := [mkWordTok "adiós", punctTok] }]

/-- C5 counterexample.  On a concrete two-sentence page with a pre-selected
book the full forward traversal produces the trace
`[vocabBatch 0, vocabBatch 1, pageAppend]`: the page append does *not* precede
the vocabulary batches, and ingestion happens twice (once per sentence), not
exactly once. -/
theorem append_before_batch_false :
    (advanceN true pageC5 (codeAdvanceTotal pageC5) initFlow).trace =
      [PgEvent.vocabBatch 0, PgEvent.vocabBatch 1, PgEvent.pageAppend] ∧
    ¬ AppendBeforeBatches
        [PgEvent.vocabBatch 0, PgEvent.vocabBatch 1, PgEvent.pageAppend] ∧
    (([PgEvent.vocabBatch 0, PgEvent.vocabBatch 1,
        PgEvent.pageAppend].filter isBatchEvent).length ≠ 1) := by
  decide

/-- C5 witness. -/
theorem page_append_after_batches_witness :
    (advanceN true pageC5 (codeAdvanceTotal pageC5) initFlow).trace =
      (List.range pageC5.length).map PgEvent.vocabBatch ++ [PgEvent.pageAppend] :=
  (page_append_after_batches pageC5 (List.cons_ne_nil _ _)).1

/-- C7.  The backward transition mirrors the forward one exactly: from
`translation` it goes to `words` at the last word index when the lexical queue
is non-empty (else to `sentence`); from `words` it decrements `wordIndex` when
positive (else goes to `sentence`); and from `sentence` it goes to the
`translation` phase of `sentenceIndex − 1` when `sentenceIndex > 0`, and is a
no-op at `sentenceIndex = 0`. -/
theorem prevPhase_transitions (result : List SentenceAnalysis) (st : FlowState) :
    (st.phase = .translation → 0 < queueLen result st →
      handlePrevPhase result st =
        { st with phase := .words, wIdx := queueLen result st - 1 }) ∧
    (st.phase = .translation → queueLen result st = 0 →
      handlePrevPhase result st = { st with phase := .sentence }) ∧
    (st.phase = .words → 0 < st.wIdx →
      handlePrevPhase result st = { st with wIdx := st.wIdx - 1 }) ∧
    (st.phase = .words → st.wIdx = 0 →
      handlePrevPhase result st = { st with phase := .sentence }) ∧
    (st.phase = .sentence → 0 < st.sIdx →
      handlePrevPhase result st = { st with sIdx := st.sIdx - 1, phase := .translation }) ∧
    (st.phase = .sentence → st.sIdx = 0 → handlePrevPhase result st = st) := by
  refine ⟨?_, ?_, ?_, ?_, ?_, ?_⟩ <;> intro hp hc
  · simp [handlePrevPhase, hp, hc]
  · simp [handlePrevPhase, hp, hc]
  · simp [handlePrevPhase, hp, hc]
  · simp [handlePrevPhase, hp, hc]
  · simp [handlePrevPhase, hp, hc]
  · simp [handlePrevPhase, hp, hc]

/-- A concrete state in the translation phase of the first `pageC6` sentence. -/
def stTransC6 : FlowState :=
  { sIdx := 0, phase := .translation, wIdx := 2, finished := false, savedToBook := false,
    trace := [] }

/-- C7 witness. -/
theorem prevPhase_transitions_witness :
    handlePrevPhase pageC6 stTransC6 =
      { stTransC6 with phase := .words, wIdx := queueLen pageC6 stTransC6 - 1 } :=
  (prevPhase_transitions pageC6 stTransC6).1 rfl (by decide)

/-! ## Training session engine (`VocabTrainer`) -/

/-- The category key `(item.category as any) || 'other'` used by the session
filter: a missing category becomes `other`; present categories keep their name. -/
inductive CatKey where
  | noun
  | verb
  | adjective
  | function
  | other
deriving DecidableEq

/-- `item.category || 'other'`. -/
def catKeyOf : Option WordCategory → CatKey
  | none => .other
  | some .noun => .noun
  | some .verb => .verb
  | some .adjective => .adjective
  | some .function => .function

/-- The session configuration chosen in the setup screen. -/
structure SessionConfig where
  cats : List CatKey
  status : List MasteryLevel
  verbsOnlyBase : Bool

/-- `item.baseForm && item.baseForm !== item.word` (JS truthiness: an empty
base form is falsy). -/
def baseFormDiffers (item : VocabItem) : Bool :=
  match item.baseForm with
  | some bf => decide (bf ≠ "") && decide (bf ≠ item.word)
  | none => false

/-- The `startSession` filter predicate: category and mastery-status must be
selected (a missing mastery level counts as `new`), and with "verbs: base
forms only" enabled, verb items whose base form is present, non-empty and
different from the surface word are excluded. -/
def sessionFilter (cfg : SessionConfig) (item : VocabItem) : Bool :=
  let cat := catKeyOf item.category
  let matchesCat := decide (cat ∈ cfg.cats)
  let matchesStatus := decide ((item.masteryLevel.getD .new) ∈ cfg.status)
  if !matchesCat || !matchesStatus then false
  else if decide (cat = .verb) && cfg.verbsOnlyBase && baseFormDiffers item then false
  else true

/-- `startSession`: filter the collection, fail ("Keine Vokabeln für diese
Auswahl gefunden!", no session created) when the filtered set is empty, else
create the session queue by shuffling the filtered list
(`[...filtered].sort(() => Math.random() - 0.5)`, modelled by the `shuffle`
oracle). -/
def startSession (shuffle : List VocabItem → List VocabItem) (cfg : SessionConfig)
    (vocabList : List VocabItem) : Option (List VocabItem) :=
  let filtered := vocabList.filter (sessionFilter cfg)
  if filtered.isEmpty then none else some (shuffle filtered)

/-- The claim's concrete base-form verb item (`hablar`). -/
def itemHablar : VocabItem :=
  { id := "v1", word := "hablar", translation := "sprechen", explanation := "",
    category := some .verb, baseForm := some "hablar", addedAt := 0, mastered := false }

/-- The claim's concrete inflected verb item (`hablé`). -/
def itemHable : VocabItem :=
  { id := "v2", word := "hablé", translation := "ich sprach", explanation := "",
    category := some .verb, baseForm := some "hablar", addedAt := 0, mastered := false }

/-- The claim's session configuration: verbs enabled, base forms only. -/
def cfgVerbBase : SessionConfig :=
  { cats := [.verb], status := [.new, .again, .medium], verbsOnlyBase := true }

/-- C9.  `startSession` filters the vocabulary collection by the configured
categories and mastery levels (with the verbs-base-forms-only option excluding
verb items whose base form is present and differs from the surface word);
when the filtered set is empty it fails with the "no matching items" condition
and creates no session (`none`); otherwise the session queue is a permutation
of exactly the filtered set.  On the claim's instance
`[hablar (base hablar), hablé (base hablar)]` with verbs selected and base
forms only, the filter keeps exactly `hablar`. -/
theorem startSession_spec (shuffle : List VocabItem → List VocabItem)
    (cfg : SessionConfig) (vocabList : List VocabItem)
    (hshuffle : ∀ l, (shuffle l).Perm l) :
    (startSession shuffle cfg vocabList = none ↔
        vocabList.filter (sessionFilter cfg) = []) ∧
    (∀ q, startSession shuffle cfg vocabList = some q →
        q.Perm (vocabList.filter (sessionFilter cfg))) ∧
    [itemHablar, itemHable].filter (sessionFilter cfgVerbBase) = [itemHablar] := by
  refine ⟨?_, ?_, by decide⟩
  · simp only [startSession]
    by_cases he : (vocabList.filter (sessionFilter cfg)).isEmpty
    · rw [if_pos he]
      exact ⟨fun _ => List.isEmpty_iff.mp he, fun _ => rfl⟩
    · rw [if_neg he]
      constructor
      · intro hcontra
        exact absurd hcontra (by simp)
      · intro hnil
        exact absurd (List.isEmpty_iff.mpr hnil) he
  · intro q hq
    simp only [startSession] at hq
    by_cases he : (vocabList.filter (sessionFilter cfg)).isEmpty
    · rw [if_pos he] at hq
      exact absurd hq (by simp)
    · rw [if_neg he] at hq
      rw [← Option.some_inj.mp hq]
      exact hshuffle _

/-- C9 witness. -/
theorem startSession_spec_witness :
    (startSession id cfgVerbBase [itemHablar, itemHable] = none ↔
        [itemHablar, itemHable].filter (sessionFilter cfgVerbBase) = []) ∧
    [itemHablar, itemHable].filter (sessionFilter cfgVerbBase) = [itemHablar] :=
  ⟨(startSession_spec id cfgVerbBase [itemHablar, itemHable] fun l => List.Perm.refl l).1,
   (startSession_spec id cfgVerbBase [itemHablar, itemHable] fun l => List.Perm.refl l).2.2⟩

/-- Modelled from the spec: the storage function `updateVocabStatus` (the
spec's `updateMasteryLevel(id, level)`) is imported by the newest
`VocabTrainer` component but its implementing storage-service generation is
missing from the repository snapshot.  Following the spec's words, it sets the
addressed item's `masteryLevel` to `level` and its legacy `mastered` flag to
`level == "mastered"`, leaving every other item unchanged. -/
def updateVocabStatus (vocab : List VocabItem) (id : String) (level : MasteryLevel) :
    List VocabItem :=
  vocab.map fun i =>
    if i.id = id then
      { i with masteryLevel := some level, mastered := decide (level = .mastered) }
    else i

/-- `handleRating(level)` of `VocabTrainer`: rates the displayed card
(`sessionQueue[currentCardIndex]`) by calling `updateVocabStatus` with that
card's id; the queue-advance / session-end handling is UI state. -/
def handleRating (vocab sessionQueue : List VocabItem) (currentCardIndex : Nat)
    (level : MasteryLevel) : List VocabItem :=
  match sessionQueue[currentCardIndex]? with
  | some card => updateVocabStatus vocab card.id level
  | none => vocab

/-- C10.  Rating the displayed training card `mastered` sets exactly the items
with that card's id to `masteryLevel = mastered` and legacy `mastered = true`
(in general `updateMasteryLevel` sets `mastered = (level == "mastered")`), and
leaves every other vocabulary item unchanged — both stated positionally via
the `map` characterization and explicitly for items with a different id. -/
theorem handleRating_mastered_spec (vocab sessionQueue : List VocabItem)
    (currentCardIndex : Nat) (card : VocabItem)
    (hcard : sessionQueue[currentCardIndex]? = some card) :
    handleRating vocab sessionQueue currentCardIndex .mastered =
      (vocab.map fun i =>
        if i.id = card.id then { i with masteryLevel := some .mastered, mastered := true }
        else i) ∧
    ∀ i ∈ vocab, i.id ≠ card.id →
      i ∈ handleRating vocab sessionQueue currentCardIndex .mastered := by
  have hmap : handleRating vocab sessionQueue currentCardIndex .mastered =
      vocab.map fun i =>
        if i.id = card.id then { i with masteryLevel := some .mastered, mastered := true }
        else i := by
    simp only [handleRating, hcard, updateVocabStatus]
    rfl
  refine ⟨hmap, ?_⟩
  intro i hi hne
  rw [hmap]
  refine List.mem_map.mpr ⟨i, hi, ?_⟩
  rw [if_neg hne]

/-- C10 witness. -/
theorem handleRating_mastered_spec_witness :
    handleRating [itemHablar, itemHable] [itemHable] 0 .mastered =
      ([itemHablar, itemHable].map fun i =>
        if i.id = itemHable.id then
          { i with masteryLevel := some .mastered, mastered := true }
        else i) :=
  (handleRating_mastered_spec [itemHablar, itemHable] [itemHable] 0 itemHable rfl).1
